import Mathlib

/-!
Verification development for the Potomatic batch translation engine.

JavaScript strings are modelled as `List Char`.  The global literal-pattern
regex replace `text.replace(/pat/g, rep)` is modelled by `replaceAll`,
a left-to-right, non-overlapping scanner.  It is written with an explicit
fuel argument (the fuel is the length of the string, which always suffices,
as `replaceAllF_congr` shows) so that every definition evaluates by kernel
reduction; the fuel is an implementation device only.
-/

namespace Potomatic

/-- Double-quote character, written via its code point. -/
def quoteC : Char := Char.ofNat 34

/-- Apostrophe character, written via its code point. -/
def aposC : Char := Char.ofNat 39

/-- Ampersand character. -/
def ampC : Char := '&'

/-- Piecewise string building: maps every character to a chunk and
concatenates the chunks.  Used to characterise the escaping functions. -/
def cmap (f : Char → List Char) : List Char → List Char
  | [] => []
  | c :: s => f c ++ cmap f s

/-- Fueled worker for `replaceAll`.  At each position, if the pattern is a
prefix of the remaining text, it emits the replacement and continues after
the matched segment (not rescanning the replacement); otherwise it keeps the
character and moves one position forward.  These are the semantics of the
JavaScript global replace with a literal pattern. -/
def replaceAllF (pat rep : List Char) : Nat → List Char → List Char
  | 0, s => s
  | _ + 1, [] => []
  | fuel + 1, c :: rest =>
    if 0 < pat.length ∧ List.take pat.length (c :: rest) = pat then
      rep ++ replaceAllF pat rep fuel (List.drop pat.length (c :: rest))
    else
      c :: replaceAllF pat rep fuel rest

/-- Model of `text.replace(/pat/g, rep)` for a literal pattern `pat`. -/
def replaceAll (pat rep s : List Char) : List Char :=
  replaceAllF pat rep s.length s

/-- Splits a string at the first occurrence of `pat`: returns the part
before the match and the part after it.  Models both `String.indexOf`-style
search and the lazy regex fragment `(.*?)pat`. -/
def splitAtSub (pat : List Char) : List Char → Option (List Char × List Char)
  | [] => if pat = [] then some ([], []) else none
  | c :: rest =>
    if List.take pat.length (c :: rest) = pat then
      some ([], List.drop pat.length (c :: rest))
    else
      match splitAtSub pat rest with
      | some (pre, post) => some (c :: pre, post)
      | none => none

/-- Whether `pat` occurs as a contiguous substring of `s`. -/
def containsSub (pat s : List Char) : Bool :=
  (splitAtSub pat s).isSome

/-- Model of `String.prototype.trim`. -/
def trimChars (s : List Char) : List Char :=
  ((s.dropWhile Char.isWhitespace).reverse.dropWhile Char.isWhitespace).reverse

/-- Decimal value of a digit string; models `parseInt` on the capture of
the regex `i="(\d+)"` (which is always a nonempty digit string). -/
def digitsToNat (ds : List Char) : Nat :=
  ds.foldl (fun acc c => acc * 10 + (c.toNat - 48)) 0

/-- Decimal rendering of a number, as JavaScript template interpolation
renders a nonnegative integer. -/
def natChars (n : Nat) : List Char :=
  (Nat.repr n).data

/-! ## The codec: src/utils/xmlTranslation.js -/

/-- Model of `escapeXmlAttribute` (xmlTranslation.js lines 361-367): the
falsy guard returns the empty string; otherwise the five characters are
replaced by entities, ampersand first. -/
def escapeXmlAttribute (text : List Char) : List Char :=
  if text = [] then []
  else
    replaceAll (['>']) ("&gt;".data)
      (replaceAll (['<']) ("&lt;".data)
        (replaceAll ([aposC]) ("&apos;".data)
          (replaceAll ([quoteC]) ("&quot;".data)
            (replaceAll (['&']) ("&amp;".data) text))))

/-- Model of `decodeXmlEntities` (xmlTranslation.js lines 339-350): the
falsy guard returns the empty string; otherwise the five entities are
decoded in order, the ampersand entity last. -/
def decodeXmlEntities (text : List Char) : List Char :=
  if text = [] then []
  else
    replaceAll ("&amp;".data) (['&'])
      (replaceAll ("&apos;".data) ([aposC])
        (replaceAll ("&quot;".data) ([quoteC])
          (replaceAll ("&gt;".data) (['>'])
            (replaceAll ("&lt;".data) (['<']) text))))

/-- The predicate of the filter `f && f.trim() !== ''` in
`validatePluralForms`: a form counts as translated when it is a nonempty
string with nonblank content. -/
def isNonBlankForm (f : List Char) : Bool :=
  decide (f ≠ []) && decide (trimChars f ≠ [])

/-- Model of `validatePluralForms` (xmlTranslation.js lines 116-183),
dropping the logger calls, which do not affect the returned value.
Returns the corrected forms and the `hasIssues` flag. -/
def validatePluralForms (forms : List (List Char)) (expectedCount : Nat) :
    List (List Char) × Bool :=
  let sized :=
    if forms.length < expectedCount then
      (forms ++ List.replicate (expectedCount - forms.length) [], true)
    else if expectedCount < forms.length then
      (forms.take expectedCount, true)
    else
      (forms, false)
  let nonEmptyCount := (sized.1.filter isNonBlankForm).length
  let hasIssues :=
    sized.2 || (decide (0 < nonEmptyCount) && decide (nonEmptyCount < expectedCount))
  (sized.1, hasIssues)

/-! ## Scanners for the regexes used by `parseXmlResponse`

Each regex is hand-compiled to a scanner with the exact leftmost-match
semantics of the JavaScript engine on these patterns. -/

/-- Attempt to match the regex `i="(\d+)"` at the start of the text:
the literal characters `i`, `=`, a double quote, a maximal nonempty digit
run, then a closing double quote.  Returns the parsed number. -/
def matchIndexAt : List Char → Option Nat
  | 'i' :: '=' :: c3 :: r =>
    if c3 = quoteC then
      let ds := r.takeWhile Char.isDigit
      match r.dropWhile Char.isDigit with
      | c4 :: _ => if 0 < ds.length ∧ c4 = quoteC then some (digitsToNat ds) else none
      | [] => none
    else none
  | _ => none

/-- Model of `block.match(/i="(\d+)"/)`: first position where the index
attribute pattern matches, scanning left to right. -/
def findIndexAttr : List Char → Option Nat
  | [] => none
  | c :: rest =>
    match matchIndexAt (c :: rest) with
    | some n => some n
    | none => findIndexAttr rest

/-- Attempt to match `<t[^>]*>[\s\S]*?<\/t>` at the start of the text:
`<t`, a maximal run of characters other than `>`, then `>`, then the
shortest body followed by `</t>`.  Returns the full match and the rest of
the text after it. -/
def tryTBlockAt : List Char → Option (List Char × List Char)
  | '<' :: 't' :: r =>
    let attrs := r.takeWhile (fun c => c ≠ '>')
    match r.dropWhile (fun c => c ≠ '>') with
    | '>' :: r2 =>
      match splitAtSub ("</t>".data) r2 with
      | some (body, rest) =>
        some ('<' :: 't' :: (attrs ++ '>' :: (body ++ "</t>".data)), rest)
      | none => none
    | _ => none
  | _ => none

/-- Fueled worker for `findBlocks`; every step either consumes a whole
match or advances one position, so fuel equal to the length suffices. -/
def findBlocksAux : Nat → List Char → List (List Char)
  | 0, _ => []
  | _ + 1, [] => []
  | fuel + 1, c :: rest =>
    match tryTBlockAt (c :: rest) with
    | some (full, after) => full :: findBlocksAux fuel after
    | none => findBlocksAux fuel rest

/-- Model of `xmlResponse.match(/<t[^>]*>[\s\S]*?<\/t>/g)`: the list of
all non-overlapping translation blocks, scanning left to right.  The
JavaScript call returns `null` exactly when this list is empty. -/
def findBlocks (s : List Char) : List (List Char) :=
  findBlocksAux s.length s

/-- Attempt to match `<t[^>]*>(.*?)<\/t>` (dotall) at the start of the
text, returning the captured body. -/
def contentMatchAt : List Char → Option (List Char)
  | '<' :: 't' :: r =>
    match r.dropWhile (fun c => c ≠ '>') with
    | '>' :: r2 => (splitAtSub ("</t>".data) r2).map Prod.fst
    | _ => none
  | _ => none

/-- Model of `block.match(/<t[^>]*>(.*?)<\/t>/s)`: the capture of the
leftmost match. -/
def contentMatch : List Char → Option (List Char)
  | [] => none
  | c :: rest =>
    match contentMatchAt (c :: rest) with
    | some body => some body
    | none => contentMatch rest

/-- Model of the per-form match with the dynamically built dotall regex
matching an fi open tag, a lazy body, and the fi close tag: the text
between the first open tag and the first close tag after it. -/
def extractForm (i : Nat) (block : List Char) : Option (List Char) :=
  let openTag := "<f".data ++ natChars i ++ (">".data)
  let closeTag := "</f".data ++ natChars i ++ (">".data)
  match splitAtSub openTag block with
  | some (_, rest) =>
    match splitAtSub closeTag rest with
    | some (body, _) => some body
    | none => none
  | none => none

/-! ## Data model -/

/-- A dictionary example pair (Dictionary Matcher output). -/
structure DictMatch where
  source : List Char
  target : List Char
deriving DecidableEq

/-- A catalog entry as the codec sees it: source text, optional plural
source, optional extracted comments. -/
structure Entry where
  msgid : List Char
  msgid_plural : Option (List Char)
  extractedComments : Option (List Char)
deriving DecidableEq

/-- One decoded translation: the entry source text and its forms. -/
structure Translation where
  msgid : List Char
  msgstr : List (List Char)
deriving DecidableEq

/-- State threaded through the block-processing loop of
`parseXmlResponse`: the per-entry results, the
`validationStats.stringsWithPluralIssues` counter, and a count of the
unconditional `logger.warn` calls (the warnings gated behind verbosity
level 2 are not counted; they do not affect the returned data). -/
structure ParseState where
  translations : List Translation
  stringsWithPluralIssues : Nat
  warnings : Nat
deriving DecidableEq

/-- The effect one translation block has on the parse state: ignored
silently, ignored with a warning, or writing forms at a batch position
together with a plural-issue flag. -/
inductive BlockAction where
  | skip : BlockAction
  | warn : BlockAction
  | write : Nat → List (List Char) → Bool → BlockAction
deriving DecidableEq

/-- Replaces the `msgstr` of the element at position `i`, leaving the list
unchanged when the position is out of range.  Models the mutation
`result[batchIndex].msgstr = ...` (the position is always in range where
the code performs it). -/
def updateMsgstr (ts : List Translation) (i : Nat) (v : List (List Char)) :
    List Translation :=
  match ts[i]? with
  | some t => ts.set i { t with msgstr := v }
  | none => ts

/-- A default entry; stands for the never-taken out-of-range array access
in the modelled code, where the index is always checked first. -/
def defaultEntry : Entry := { msgid := [], msgid_plural := none, extractedComments := none }

/-- The decision the body of the `translationBlocks.forEach` loop of
`parseXmlResponse` (xmlTranslation.js lines 243-318) takes for one block.
The cascade mirrors the source line by line:
no index attribute warns; an index at most `dictionaryCount` is skipped;
the zero-based batch index is the response index minus `dictionaryCount`
minus 1 (the JavaScript negative check is vacuous here because the index
already exceeds `dictionaryCount`); an out-of-range batch index warns;
a block with form tags decodes the forms f0 .. f(pluralCount-1), a missing
form becoming the empty string, and validates them; a block without form
tags takes its whole body as a single translation, which is validated
against the plural count when the batch entry has a plural source and kept
as a one-element list otherwise; a block whose body cannot be re-extracted
is ignored. -/
def blockAction (batch : List Entry) (pluralCount dictionaryCount : Nat)
    (block : List Char) : BlockAction :=
  match findIndexAttr block with
  | none => .warn
  | some responseIndex =>
    if responseIndex ≤ dictionaryCount then .skip
    else
      let batchIndex := responseIndex - dictionaryCount - 1
      if batch.length ≤ batchIndex then .warn
      else
        if containsSub ("<f0>".data) block then
          let forms := (List.range pluralCount).map fun i =>
            match extractForm i block with
            | some captured => decodeXmlEntities captured
            | none => []
          let vp := validatePluralForms forms pluralCount
          .write batchIndex vp.1 vp.2
        else
          match contentMatch block with
          | some content =>
            let translation := decodeXmlEntities content
            match (batch.getD batchIndex defaultEntry).msgid_plural with
            | some _ =>
              let vp := validatePluralForms [translation] pluralCount
              .write batchIndex vp.1 vp.2
            | none => .write batchIndex [translation] false
          | none => .skip

/-- Applies the decision for one block to the parse state: a write replaces
the forms at the batch position and bumps the plural-issue counter when the
validation flagged an issue. -/
def processBlock (batch : List Entry) (pluralCount dictionaryCount : Nat)
    (st : ParseState) (block : List Char) : ParseState :=
  match blockAction batch pluralCount dictionaryCount block with
  | .skip => st
  | .warn => { st with warnings := st.warnings + 1 }
  | .write batchIndex forms issue =>
    { translations := updateMsgstr st.translations batchIndex forms,
      stringsWithPluralIssues := st.stringsWithPluralIssues + (if issue then 1 else 0),
      warnings := st.warnings }

/-- Model of `parseXmlResponse` (xmlTranslation.js lines 202-335).  The
result starts as one all-empty-forms translation per batch entry; an empty
or whitespace response, or a response without translation blocks, returns
it unchanged with zeroed stats; otherwise every found block is processed in
document order.  The try/catch wrapper of the source cannot fire in this
model, whose functions are total. -/
def parseXmlResponse (xmlResponse : List Char) (batch : List Entry)
    (pluralCount dictionaryCount : Nat) : ParseState :=
  let result := batch.map fun e => { msgid := e.msgid, msgstr := List.replicate pluralCount ([] : List Char) }
  if trimChars xmlResponse = [] then
    { translations := result, stringsWithPluralIssues := 0, warnings := 0 }
  else
    match findBlocks xmlResponse with
    | [] => { translations := result, stringsWithPluralIssues := 0, warnings := 0 }
    | blocks =>
      blocks.foldl (processBlock batch pluralCount dictionaryCount)
        { translations := result, stringsWithPluralIssues := 0, warnings := 0 }

/-! ## The encoder: buildXmlPrompt (xmlTranslation.js lines 23-88) -/

/-- The `startIndex` computed by `buildXmlPrompt`: 1 without dictionary
examples, the dictionary count plus 1 with them. -/
def batchStartIndex (dictionaryCount : Nat) : Nat :=
  if 0 < dictionaryCount then dictionaryCount + 1 else 1

/-- The 1-based indices the encoder assigns to the dictionary examples
(the dictIndex of the forEach over dictionaryMatches). -/
def dictIndices (dictionaryMatches : List DictMatch) : List Nat :=
  dictionaryMatches.enum.map fun p => p.1 + 1

/-- The indices the encoder assigns to the batch entries (the actualIndex
of the map over the batch). -/
def entryIndices (batch : List Entry) (dictionaryCount : Nat) : List Nat :=
  batch.enum.map fun p => batchStartIndex dictionaryCount + p.1

/-- One rendered dictionary example line of the prompt. -/
def dictTag (dictIndex : Nat) (m : DictMatch) : List Char :=
  "<source i=\"".data ++ natChars dictIndex ++ "\">".data
    ++ escapeXmlAttribute m.source ++ "</source>\n".data

/-- One rendered source block of the prompt.  In the source the branch
rendering separate singular and plural child tags for entries with a
plural source is commented out, so every entry falls through to the
single-tag format carrying only `msgid`. -/
def sourceTag (actualIndex : Nat) (entry : Entry) : List Char :=
  let attrs :=
    ("i=\"".data ++ natChars actualIndex ++ "\"".data) ::
      (match entry.extractedComments with
       | some c => [("c=\"".data ++ escapeXmlAttribute c ++ "\"".data)]
       | none => [])
  "<source ".data ++ List.intercalate (" ".data) attrs ++ ">".data
    ++ escapeXmlAttribute entry.msgid ++ "</source>".data

/-- The f0 .. f(pluralCount-1) format tags of the plural instructions. -/
def formTagsFor (pluralCount : Nat) : List Char :=
  List.flatten ((List.range pluralCount).map fun i =>
    "<f".data ++ natChars i ++ ">translation for form ".data
      ++ natChars i ++ "</f".data ++ natChars i ++ ">".data)

/-- What `buildXmlPrompt` returns: the prompt text, the dictionary count
and the metadata start index. -/
structure BuildOutput where
  xmlPrompt : List Char
  dictionaryCount : Nat
  batchStartIndexMeta : Nat
deriving DecidableEq

/-- Model of `buildXmlPrompt` (xmlTranslation.js lines 23-88).  The
language name, produced by the external language mapping collaborator, is
passed in directly. -/
def buildXmlPrompt (batch : List Entry) (languageName : List Char)
    (pluralCount : Nat) (dictionaryMatches : List DictMatch) : BuildOutput :=
  let startIndex := batchStartIndex dictionaryMatches.length
  let dictPart :=
    if 0 < dictionaryMatches.length then
      "<!-- Dictionary Examples for Consistency -->\n".data
        ++ List.flatten (dictionaryMatches.enum.map fun p => dictTag (p.1 + 1) p.2)
        ++ "<!-- End Dictionary Examples -->\n\n".data
    else []
  let hasPlurals := batch.any fun e => e.msgid_plural.isSome
  let xmlTags :=
    List.intercalate ("\n".data)
      (batch.enum.map fun p => sourceTag (startIndex + p.1) p.2)
  let instructions :=
    if hasPlurals then
      "For entries with <singular> and <plural> tags, provide ".data
        ++ natChars pluralCount ++ " translations:\n\n".data
        ++ "Format: <t i=\"N\">".data ++ formTagsFor pluralCount ++ "</t>\n".data
    else
      "Format: <t i=\"N\">translation</t>\n".data
  { xmlPrompt :=
      "Translate to ".data ++ languageName ++ ":\n\n".data
        ++ dictPart ++ xmlTags ++ "\n\nRespond:\n".data ++ instructions,
    dictionaryCount := dictionaryMatches.length,
    batchStartIndexMeta := startIndex }

/-! ## Retry configuration: src/config/index.js

Environment variables are taken as absent, so the zod schema defaults
apply: MAX_RETRIES defaults to 3 and RETRY_DELAY to 2000. -/

/-- The zod default for MAX_RETRIES (config/index.js line 71). -/
def MAX_RETRIES_DEFAULT : Int := 3

/-- The zod default for RETRY_DELAY (config/index.js line 72). -/
def RETRY_DELAY_DEFAULT : Int := 2000

/-- The commander argument parser of --max-retries (config/index.js line
309): the supplied value clamped into 0 .. 10; an absent option keeps the
default. -/
def cliMaxRetries : Option Int → Int
  | some v => max 0 (min 10 v)
  | none => MAX_RETRIES_DEFAULT

/-- The commander argument parser of --retry-delay (config/index.js line
310): the supplied value clamped into 500 .. 30000; an absent option keeps
the default. -/
def cliRetryDelay : Option Int → Int
  | some v => max 500 (min 30000 v)
  | none => RETRY_DELAY_DEFAULT

/-- The maxRetries field of `createConfiguration` (config/index.js line
455): the parsed option, except that JavaScript OR treats the number 0 as
falsy and replaces it with the default. -/
def configMaxRetries (opt : Option Int) : Int :=
  let o := cliMaxRetries opt
  if o = 0 then MAX_RETRIES_DEFAULT else o

/-- The retryDelayMs field of `createConfiguration` (config/index.js line
456), with the same falsy-OR shape. -/
def configRetryDelay (opt : Option Int) : Int :=
  let o := cliRetryDelay opt
  if o = 0 then RETRY_DELAY_DEFAULT else o

/-! ## Spec-side characterisation of the escaping functions

`escSpec` renders the specification sentence that escaping transforms only
the five characters, each into its entity, and leaves every other
character unchanged.  The dSpec functions describe the intermediate
strings of the decoding chain applied to an escaped string; `dSpec5` is
pointwise the identity. -/

/-- Per-character escaping map: the five special characters become their
entities, all other characters stay. -/
def escSpec (a : Char) : List Char :=
  if a = '&' then "&amp;".data
  else if a = quoteC then "&quot;".data
  else if a = aposC then "&apos;".data
  else if a = '<' then "&lt;".data
  else if a = '>' then "&gt;".data
  else [a]

/-- Pieces after the first escaping stage (ampersand). -/
def eSpec1 (a : Char) : List Char := if a = '&' then "&amp;".data else [a]

/-- Pieces after the second escaping stage (double quote). -/
def eSpec2 (a : Char) : List Char := if a = quoteC then "&quot;".data else eSpec1 a

/-- Pieces after the third escaping stage (apostrophe). -/
def eSpec3 (a : Char) : List Char := if a = aposC then "&apos;".data else eSpec2 a

/-- Pieces after the fourth escaping stage (less-than). -/
def eSpec4 (a : Char) : List Char := if a = '<' then "&lt;".data else eSpec3 a

/-- Pieces after decoding the lt entity in an escaped string. -/
def dSpec1 (a : Char) : List Char := if a = '<' then ['<'] else escSpec a

/-- Pieces after decoding the gt entity as well. -/
def dSpec2 (a : Char) : List Char := if a = '>' then ['>'] else dSpec1 a

/-- Pieces after decoding the quot entity as well. -/
def dSpec3 (a : Char) : List Char := if a = quoteC then [quoteC] else dSpec2 a

/-- Pieces after decoding the apos entity as well. -/
def dSpec4 (a : Char) : List Char := if a = aposC then [aposC] else dSpec3 a

/-- Pieces after decoding the amp entity as well. -/
def dSpec5 (a : Char) : List Char := if a = '&' then ['&'] else dSpec4 a

/-! ## Lemmas about the string model -/

/-- The fuel of `replaceAllF` is irrelevant as long as it covers the
length of the string. -/
theorem replaceAllF_congr (pat rep : List Char) :
    ∀ (n : Nat) (s : List Char) (f1 f2 : Nat), s.length ≤ n → s.length ≤ f1 →
      s.length ≤ f2 → replaceAllF pat rep f1 s = replaceAllF pat rep f2 s := by
  intro n
  induction n with
  | zero =>
    intro s f1 f2 hs _ _
    have : s = [] := List.eq_nil_of_length_eq_zero (Nat.le_zero.mp hs)
    subst this
    cases f1 <;> cases f2 <;> rfl
  | succ n ih =>
    intro s f1 f2 hs h1 h2
    cases s with
    | nil => cases f1 <;> cases f2 <;> rfl
    | cons c rest =>
      have hr : rest.length + 1 ≤ n + 1 := by simpa using hs
      obtain ⟨g1, rfl⟩ : ∃ g, f1 = g + 1 := by
        cases f1 with
        | zero => simp at h1
        | succ g => exact ⟨g, rfl⟩
      obtain ⟨g2, rfl⟩ : ∃ g, f2 = g + 1 := by
        cases f2 with
        | zero => simp at h2
        | succ g => exact ⟨g, rfl⟩
      simp only [List.length_cons] at hs h1 h2
      by_cases hc : 0 < pat.length ∧ List.take pat.length (c :: rest) = pat
      · simp only [replaceAllF, if_pos hc]
        have hp1 := hc.1
        have hd : (List.drop pat.length (c :: rest)).length
            = rest.length + 1 - pat.length := by
          simp [List.length_drop]
        rw [ih _ g1 g2 (by omega) (by omega) (by omega)]
      · simp only [replaceAllF, if_neg hc]
        rw [ih _ g1 g2 (by omega) (by omega) (by omega)]

/-- Replacing in the empty string gives the empty string. -/
theorem replaceAll_nil (pat rep : List Char) : replaceAll pat rep [] = [] := rfl

/-- Unfolding `replaceAll` at a matching position. -/
theorem replaceAll_cons_match {pat : List Char} (rep : List Char) {c : Char}
    {rest : List Char} (h : 0 < pat.length)
    (ht : List.take pat.length (c :: rest) = pat) :
    replaceAll pat rep (c :: rest)
      = rep ++ replaceAll pat rep (List.drop pat.length (c :: rest)) := by
  show replaceAllF pat rep (rest.length + 1) (c :: rest) = _
  rw [replaceAllF, if_pos ⟨h, ht⟩]
  congr 1
  exact replaceAllF_congr pat rep (rest.length + 1) _ _ _
    (by simp [List.length_drop]) (by simp [List.length_drop]; omega) le_rfl

/-- Unfolding `replaceAll` at a non-matching position. -/
theorem replaceAll_cons_nomatch {pat : List Char} (rep : List Char) {c : Char}
    {rest : List Char}
    (h : ¬(0 < pat.length ∧ List.take pat.length (c :: rest) = pat)) :
    replaceAll pat rep (c :: rest) = c :: replaceAll pat rep rest := by
  show replaceAllF pat rep (rest.length + 1) (c :: rest) = _
  rw [replaceAllF, if_neg h]
  rfl

/-- A match at the start of the text is consumed whole. -/
theorem replaceAll_append_pat {pat : List Char} (rep : List Char)
    (t : List Char) (h : pat ≠ []) :
    replaceAll pat rep (pat ++ t) = rep ++ replaceAll pat rep t := by
  cases pat with
  | nil => exact absurd rfl h
  | cons c p =>
    rw [List.cons_append,
      replaceAll_cons_match rep (by simp) (by rw [← List.cons_append, List.take_left]),
      ← List.cons_append, List.drop_left]

/-- Text free of the first character of the pattern passes through a
replacement unchanged. -/
theorem replaceAll_append_free {pat : List Char} (rep : List Char) {x : Char}
    (hx : pat.head? = some x) :
    ∀ (p t : List Char), (∀ c ∈ p, c ≠ x) →
      replaceAll pat rep (p ++ t) = p ++ replaceAll pat rep t := by
  intro p
  induction p with
  | nil => intro t _; rfl
  | cons c p ih =>
    intro t hp
    cases pat with
    | nil => simp at hx
    | cons y ys =>
      have hyx : y = x := by simpa using hx
      rw [List.cons_append, replaceAll_cons_nomatch]
      · rw [ih t fun d hd => hp d (List.mem_cons_of_mem c hd), List.cons_append]
      · rintro ⟨-, htake⟩
        have hcy : c = y := by
          have h2 := congrArg List.head? htake
          simpa [List.take_succ_cons] using h2
        exact hp c (List.mem_cons_self c p) (hcy.trans hyx)

/-- A piece that differs from the pattern at some shared position, and
has no pattern-head character past its first position, passes through a
replacement unchanged. -/
theorem replaceAll_skip_piece {pat : List Char} (rep : List Char) {x : Char}
    (hx : pat.head? = some x) (p t : List Char)
    (hdiff : ∃ j, j < pat.length ∧ j < p.length ∧ p[j]? ≠ pat[j]?)
    (htail : ∀ c ∈ p.drop 1, c ≠ x) :
    replaceAll pat rep (p ++ t) = p ++ replaceAll pat rep t := by
  cases p with
  | nil => obtain ⟨j, -, hj, -⟩ := hdiff; simp at hj
  | cons c p =>
    rw [List.cons_append, replaceAll_cons_nomatch]
    · have h3 : replaceAll pat rep (p ++ t) = p ++ replaceAll pat rep t :=
        replaceAll_append_free rep hx p t (by simpa using htail)
      rw [h3, List.cons_append]
    · rintro ⟨-, htake⟩
      obtain ⟨j, hj1, hj2, hne⟩ := hdiff
      apply hne
      have h1 : (List.take pat.length (c :: (p ++ t)))[j]? = pat[j]? :=
        congrArg (fun l => l[j]?) htake
      rw [List.getElem?_take_of_lt hj1] at h1
      rw [← h1, ← List.cons_append, List.getElem?_append_left hj2]

/-- The piecewise map distributes over append. -/
theorem cmap_append (f : Char → List Char) :
    ∀ s t : List Char, cmap f (s ++ t) = cmap f s ++ cmap f t := by
  intro s t
  induction s with
  | nil => rfl
  | cons c s ih => simp [cmap, ih]

/-- Composition of piecewise maps. -/
theorem cmap_cmap (f g : Char → List Char) :
    ∀ s : List Char, cmap g (cmap f s) = cmap (fun a => cmap g (f a)) s := by
  intro s
  induction s with
  | nil => rfl
  | cons c s ih => simp [cmap, cmap_append, ih]

/-- Pointwise equal piece functions give equal piecewise maps. -/
theorem cmap_congr {f g : Char → List Char} (h : ∀ a, f a = g a) :
    ∀ s : List Char, cmap f s = cmap g s := by
  intro s
  induction s with
  | nil => rfl
  | cons c s ih => simp [cmap, ih, h c]

/-- The singleton piece function is the identity. -/
theorem cmap_singleton : ∀ s : List Char, cmap (fun a => [a]) s = s := by
  intro s
  induction s with
  | nil => rfl
  | cons c s ih => simp [cmap, ih]

/-- A single-character replacement is a piecewise map. -/
theorem replaceAll_single (c : Char) (rep : List Char) :
    ∀ s : List Char,
      replaceAll [c] rep s = cmap (fun a => if a = c then rep else [a]) s := by
  intro s
  induction s with
  | nil => rfl
  | cons a s ih =>
    by_cases hac : a = c
    · subst hac
      rw [replaceAll_cons_match rep (by simp) (by simp)]
      simpa [cmap] using ih
    · rw [replaceAll_cons_nomatch rep (by simp [List.take_succ_cons, hac])]
      simp [cmap, hac, ih]

/-- One escaping stage: replacing a single character inside a piecewise
map refines the piece function. -/
theorem esc_stage (c : Char) (rep : List Char) (f g : Char → List Char)
    (h : ∀ a, g a = cmap (fun b => if b = c then rep else [b]) (f a)) :
    ∀ s : List Char, replaceAll [c] rep (cmap f s) = cmap g s := by
  intro s
  rw [replaceAll_single, cmap_cmap]
  exact (cmap_congr h s).symm

/-- One decoding stage: a pattern starting with a marker character is
replaced piece by piece inside a piecewise map, provided every piece
either is the pattern, is free of the marker, or deviates from the
pattern at a shared position and has no marker past its head. -/
theorem dec_stage (pat rep : List Char) (x : Char) (g g' : Char → List Char)
    (hx : pat.head? = some x)
    (hcase : ∀ a,
      (g a = pat ∧ g' a = rep)
      ∨ (g' a = g a ∧ ∀ c ∈ g a, c ≠ x)
      ∨ (g' a = g a
          ∧ (∃ j, j < pat.length ∧ j < (g a).length ∧ (g a)[j]? ≠ pat[j]?)
          ∧ ∀ c ∈ (g a).drop 1, c ≠ x)) :
    ∀ s : List Char, replaceAll pat rep (cmap g s) = cmap g' s := by
  intro s
  induction s with
  | nil => rfl
  | cons a s ih =>
    have hne : pat ≠ [] := by
      intro hp
      rw [hp] at hx
      simp at hx
    show replaceAll pat rep (g a ++ cmap g s) = g' a ++ cmap g' s
    rcases hcase a with ⟨h1, h2⟩ | ⟨h1, h2⟩ | ⟨h1, h2, h3⟩
    · rw [h1, replaceAll_append_pat rep _ hne, ih, h2]
    · rw [replaceAll_append_free rep hx _ _ h2, ih, h1]
    · rw [replaceAll_skip_piece rep hx _ _ h2 h3, ih, h1]

/-- A string free of the head character of the pattern is unchanged by
the replacement. -/
theorem replaceAll_free_id {pat : List Char} (rep : List Char) {x : Char}
    (hx : pat.head? = some x) (s : List Char) (h : ∀ c ∈ s, c ≠ x) :
    replaceAll pat rep s = s := by
  have h2 := replaceAll_append_free rep hx s [] h
  simpa [replaceAll_nil pat rep] using h2

/-- Every escaping piece is nonempty. -/
theorem escSpec_ne_nil (a : Char) : escSpec a ≠ [] := by
  unfold escSpec
  repeat' split
  all_goals simp

/-- The escape function is the piecewise map of `escSpec`: it transforms
exactly the five special characters, each into its entity, and leaves all
other characters unchanged. -/
theorem escape_eq_cmap : ∀ s : List Char, escapeXmlAttribute s = cmap escSpec s := by
  have h1 : ∀ s, replaceAll ['&'] ("&amp;".data) s = cmap eSpec1 s :=
    replaceAll_single '&' ("&amp;".data)
  have h2 : ∀ s, replaceAll [quoteC] ("&quot;".data) (cmap eSpec1 s) = cmap eSpec2 s := by
    apply esc_stage
    intro a
    by_cases ha : a = '&'
    · subst ha; decide
    by_cases hb : a = quoteC
    · subst hb; decide
    simp [eSpec1, eSpec2, cmap, ha, hb]
  have h3 : ∀ s, replaceAll [aposC] ("&apos;".data) (cmap eSpec2 s) = cmap eSpec3 s := by
    apply esc_stage
    intro a
    by_cases ha : a = '&'
    · subst ha; decide
    by_cases hb : a = quoteC
    · subst hb; decide
    by_cases hc : a = aposC
    · subst hc; decide
    simp [eSpec1, eSpec2, eSpec3, cmap, ha, hb, hc]
  have h4 : ∀ s, replaceAll ['<'] ("&lt;".data) (cmap eSpec3 s) = cmap eSpec4 s := by
    apply esc_stage
    intro a
    by_cases ha : a = '&'
    · subst ha; decide
    by_cases hb : a = quoteC
    · subst hb; decide
    by_cases hc : a = aposC
    · subst hc; decide
    by_cases hd : a = '<'
    · subst hd; decide
    simp [eSpec1, eSpec2, eSpec3, eSpec4, cmap, ha, hb, hc, hd]
  have h5 : ∀ s, replaceAll ['>'] ("&gt;".data) (cmap eSpec4 s) = cmap escSpec s := by
    apply esc_stage
    intro a
    by_cases ha : a = '&'
    · subst ha; decide
    by_cases hb : a = quoteC
    · subst hb; decide
    by_cases hc : a = aposC
    · subst hc; decide
    by_cases hd : a = '<'
    · subst hd; decide
    by_cases he : a = '>'
    · subst he; decide
    simp [eSpec1, eSpec2, eSpec3, eSpec4, escSpec, cmap, ha, hb, hc, hd, he]
  intro s
  cases s with
  | nil => rfl
  | cons a s0 =>
    unfold escapeXmlAttribute
    rw [if_neg (by simp), h1, h2, h3, h4, h5]

/-- Decoding the lt entity in an escaped string. -/
theorem dec_stage_lt : ∀ s, replaceAll ("&lt;".data) ['<'] (cmap escSpec s) = cmap dSpec1 s := by
  apply dec_stage _ _ '&' _ _ (by decide)
  intro a
  by_cases ha : a = '&'
  · subst ha
    exact Or.inr (Or.inr ⟨by decide, ⟨1, by decide, by decide, by decide⟩, by decide⟩)
  by_cases hb : a = quoteC
  · subst hb
    exact Or.inr (Or.inr ⟨by decide, ⟨1, by decide, by decide, by decide⟩, by decide⟩)
  by_cases hc : a = aposC
  · subst hc
    exact Or.inr (Or.inr ⟨by decide, ⟨1, by decide, by decide, by decide⟩, by decide⟩)
  by_cases hd : a = '<'
  · subst hd
    exact Or.inl ⟨by decide, by decide⟩
  by_cases he : a = '>'
  · subst he
    exact Or.inr (Or.inr ⟨by decide, ⟨1, by decide, by decide, by decide⟩, by decide⟩)
  refine Or.inr (Or.inl ⟨by simp [dSpec1, escSpec, ha, hb, hc, hd, he], ?_⟩)
  simp [escSpec, ha, hb, hc, hd, he]

/-- Decoding the gt entity as well. -/
theorem dec_stage_gt : ∀ s, replaceAll ("&gt;".data) ['>'] (cmap dSpec1 s) = cmap dSpec2 s := by
  apply dec_stage _ _ '&' _ _ (by decide)
  intro a
  by_cases ha : a = '&'
  · subst ha
    exact Or.inr (Or.inr ⟨by decide, ⟨1, by decide, by decide, by decide⟩, by decide⟩)
  by_cases hb : a = quoteC
  · subst hb
    exact Or.inr (Or.inr ⟨by decide, ⟨1, by decide, by decide, by decide⟩, by decide⟩)
  by_cases hc : a = aposC
  · subst hc
    exact Or.inr (Or.inr ⟨by decide, ⟨1, by decide, by decide, by decide⟩, by decide⟩)
  by_cases hd : a = '<'
  · subst hd
    exact Or.inr (Or.inl ⟨by decide, by decide⟩)
  by_cases he : a = '>'
  · subst he
    exact Or.inl ⟨by decide, by decide⟩
  refine Or.inr (Or.inl ⟨by simp [dSpec1, dSpec2, escSpec, ha, hb, hc, hd, he], ?_⟩)
  simp [dSpec1, escSpec, ha, hb, hc, hd, he]

/-- Decoding the quot entity as well. -/
theorem dec_stage_quot : ∀ s, replaceAll ("&quot;".data) [quoteC] (cmap dSpec2 s) = cmap dSpec3 s := by
  apply dec_stage _ _ '&' _ _ (by decide)
  intro a
  by_cases ha : a = '&'
  · subst ha
    exact Or.inr (Or.inr ⟨by decide, ⟨1, by decide, by decide, by decide⟩, by decide⟩)
  by_cases hb : a = quoteC
  · subst hb
    exact Or.inl ⟨by decide, by decide⟩
  by_cases hc : a = aposC
  · subst hc
    exact Or.inr (Or.inr ⟨by decide, ⟨1, by decide, by decide, by decide⟩, by decide⟩)
  by_cases hd : a = '<'
  · subst hd
    exact Or.inr (Or.inl ⟨by decide, by decide⟩)
  by_cases he : a = '>'
  · subst he
    exact Or.inr (Or.inl ⟨by decide, by decide⟩)
  refine Or.inr (Or.inl ⟨by simp [dSpec1, dSpec2, dSpec3, escSpec, ha, hb, hc, hd, he], ?_⟩)
  simp [dSpec1, dSpec2, escSpec, ha, hb, hc, hd, he]

/-- Decoding the apos entity as well. -/
theorem dec_stage_apos : ∀ s, replaceAll ("&apos;".data) [aposC] (cmap dSpec3 s) = cmap dSpec4 s := by
  apply dec_stage _ _ '&' _ _ (by decide)
  intro a
  by_cases ha : a = '&'
  · subst ha
    exact Or.inr (Or.inr ⟨by decide, ⟨2, by decide, by decide, by decide⟩, by decide⟩)
  by_cases hb : a = quoteC
  · subst hb
    exact Or.inr (Or.inl ⟨by decide, by decide⟩)
  by_cases hc : a = aposC
  · subst hc
    exact Or.inl ⟨by decide, by decide⟩
  by_cases hd : a = '<'
  · subst hd
    exact Or.inr (Or.inl ⟨by decide, by decide⟩)
  by_cases he : a = '>'
  · subst he
    exact Or.inr (Or.inl ⟨by decide, by decide⟩)
  refine Or.inr (Or.inl ⟨by simp [dSpec1, dSpec2, dSpec3, dSpec4, escSpec, ha, hb, hc, hd, he], ?_⟩)
  simp [dSpec1, dSpec2, dSpec3, escSpec, ha, hb, hc, hd, he]

/-- Decoding the amp entity as well. -/
theorem dec_stage_amp : ∀ s, replaceAll ("&amp;".data) ['&'] (cmap dSpec4 s) = cmap dSpec5 s := by
  apply dec_stage _ _ '&' _ _ (by decide)
  intro a
  by_cases ha : a = '&'
  · subst ha
    exact Or.inl ⟨by decide, by decide⟩
  by_cases hb : a = quoteC
  · subst hb
    exact Or.inr (Or.inl ⟨by decide, by decide⟩)
  by_cases hc : a = aposC
  · subst hc
    exact Or.inr (Or.inl ⟨by decide, by decide⟩)
  by_cases hd : a = '<'
  · subst hd
    exact Or.inr (Or.inl ⟨by decide, by decide⟩)
  by_cases he : a = '>'
  · subst he
    exact Or.inr (Or.inl ⟨by decide, by decide⟩)
  refine Or.inr (Or.inl ⟨by simp [dSpec1, dSpec2, dSpec3, dSpec4, dSpec5, escSpec, ha, hb, hc, hd, he], ?_⟩)
  simp [dSpec1, dSpec2, dSpec3, dSpec4, escSpec, ha, hb, hc, hd, he]

/-- After all five decoding stages every piece is a single character
again. -/
theorem dSpec5_singleton : ∀ a, dSpec5 a = [a] := by
  intro a
  by_cases ha : a = '&'
  · subst ha; decide
  by_cases hb : a = quoteC
  · subst hb; decide
  by_cases hc : a = aposC
  · subst hc; decide
  by_cases hd : a = '<'
  · subst hd; decide
  by_cases he : a = '>'
  · subst he; decide
  simp [dSpec1, dSpec2, dSpec3, dSpec4, dSpec5, escSpec, ha, hb, hc, hd, he]

/-- Decoding inverts escaping. -/
theorem decode_escape_id : ∀ s : List Char,
    decodeXmlEntities (escapeXmlAttribute s) = s := by
  intro s
  cases s with
  | nil => rfl
  | cons a s0 =>
    rw [escape_eq_cmap]
    have hnil : cmap escSpec (a :: s0) ≠ [] := by
      show escSpec a ++ cmap escSpec s0 ≠ []
      simp [escSpec_ne_nil a]
    unfold decodeXmlEntities
    rw [if_neg hnil, dec_stage_lt, dec_stage_gt, dec_stage_quot, dec_stage_apos,
      dec_stage_amp, cmap_congr dSpec5_singleton, cmap_singleton]

/-- Strings without an ampersand contain no entity and decode to
themselves. -/
theorem decode_amp_free_id (s : List Char) (h : ∀ c ∈ s, c ≠ '&') :
    decodeXmlEntities s = s := by
  cases s with
  | nil => rfl
  | cons a s0 =>
    unfold decodeXmlEntities
    rw [if_neg (by simp),
      replaceAll_free_id _ (by decide) _ h, replaceAll_free_id _ (by decide) _ h,
      replaceAll_free_id _ (by decide) _ h, replaceAll_free_id _ (by decide) _ h,
      replaceAll_free_id _ (by decide) _ h]

/-! ## Claim C8 -/

/-- C8: decoding the XML entities of the escaped text restores every
string exactly; escaping is the piecewise map transforming only the five
characters ampersand, double quote, apostrophe, less-than and greater-than
(each into its entity, every other character kept); and decoding performs
only the five entity replacements, so a string without an ampersand, which
can contain no entity, is left unchanged. -/
theorem c8_escape_unescape_roundtrip :
    ∀ s : List Char,
      decodeXmlEntities (escapeXmlAttribute s) = s
      ∧ escapeXmlAttribute s = cmap escSpec s
      ∧ ((∀ c ∈ s, c ≠ '&') → decodeXmlEntities s = s) :=
  fun s => ⟨decode_escape_id s, escape_eq_cmap s, decode_amp_free_id s⟩

/-- Witness for C8 at concrete strings covering all five special
characters and the entity-free hypothesis. -/
theorem c8_escape_unescape_roundtrip_witness :
    decodeXmlEntities (escapeXmlAttribute ("a&b<c>\x22d\x27e".data)) = "a&b<c>\x22d\x27e".data
    ∧ decodeXmlEntities ("plain text".data) = "plain text".data :=
  ⟨(c8_escape_unescape_roundtrip ("a&b<c>\x22d\x27e".data)).1,
    (c8_escape_unescape_roundtrip ("plain text".data)).2.2 (by decide)⟩

/-! ## Plural validation: claims C5 and C7 -/

/-- The corrected forms list always has exactly the expected length. -/
theorem validatePluralForms_length (forms : List (List Char)) (n : Nat) :
    (validatePluralForms forms n).1.length = n := by
  unfold validatePluralForms
  by_cases h1 : forms.length < n
  · simp only [if_pos h1]
    simp [List.length_append, List.length_replicate]
    omega
  · by_cases h2 : n < forms.length
    · simp only [if_neg h1, if_pos h2]
      simp [List.length_take]
      omega
    · simp only [if_neg h1, if_neg h2]
      omega

/-- Padding shape of the validator when too few forms arrive. -/
theorem validatePluralForms_pad {forms : List (List Char)} {n : Nat}
    (h : forms.length < n) :
    validatePluralForms forms n
      = (forms ++ List.replicate (n - forms.length) [], true) := by
  unfold validatePluralForms
  simp [h]

/-- Truncation shape of the validator when too many forms arrive. -/
theorem validatePluralForms_trunc {forms : List (List Char)} {n : Nat}
    (h : n < forms.length) :
    validatePluralForms forms n = (forms.take n, true) := by
  unfold validatePluralForms
  simp [h, Nat.lt_asymm h]

/-- With the expected number of forms the list is returned unchanged. -/
theorem validatePluralForms_eq_count {forms : List (List Char)} {n : Nat}
    (h : forms.length = n) :
    (validatePluralForms forms n).1 = forms := by
  unfold validatePluralForms
  simp [h]

/-- C5: for every forms list and positive expected count the validator
returns exactly expectedCount forms; too few forms are padded at the end
with empty strings and flagged, too many are truncated from the end and
flagged; in particular two forms against an expected three come back as
the two forms plus one empty string, flagged. -/
theorem c5_plural_count_correction :
    ∀ (forms : List (List Char)) (expectedCount : Nat), 1 ≤ expectedCount →
      (validatePluralForms forms expectedCount).1.length = expectedCount
      ∧ (forms.length < expectedCount →
          validatePluralForms forms expectedCount
            = (forms ++ List.replicate (expectedCount - forms.length) [], true))
      ∧ (expectedCount < forms.length →
          validatePluralForms forms expectedCount = (forms.take expectedCount, true))
      ∧ (∀ f0 f1 : List Char, validatePluralForms [f0, f1] 3 = ([f0, f1, []], true)) := by
  intro forms n _
  refine ⟨validatePluralForms_length forms n, fun h => validatePluralForms_pad h,
    fun h => validatePluralForms_trunc h, fun f0 f1 => ?_⟩
  rw [validatePluralForms_pad (by simp)]
  simp

/-- Witness for C5 at a concrete input. -/
theorem c5_plural_count_correction_witness :
    (1:Nat) ≤ 3
    ∧ (validatePluralForms [['a'], ['b']] 3).1.length = 3
    ∧ validatePluralForms [['a'], ['b']] 3 = ([['a'], ['b'], []], true) := by
  have h := c5_plural_count_correction [['a'], ['b']] 3 (by decide)
  exact ⟨by decide, h.1, h.2.1 (by decide)⟩

/-- Counterexample to C7 as stated: with the plain reading of nonempty,
the forms list with one whitespace-only form and one empty form has some
but not all forms nonempty and the right length, yet the validator
reports no issue, because the code counts a form as translated only when
it is nonblank after trimming. -/
theorem c7_counterexample :
    validatePluralForms [[' '], []] 2 = ([[' '], []], false)
    ∧ ([' '] : List Char) ≠ []
    ∧ ¬ (validatePluralForms [[' '], []] 2).2 = true := by
  decide

/-- C7 (amended): when the forms list already has the expected length the
validator never alters it; and if some but not all forms are nonblank
(nonempty after trimming whitespace, the notion the code uses) the result
is the unchanged list with the issue flag set. -/
theorem c7_incomplete_forms_advisory :
    ∀ (forms : List (List Char)) (n : Nat), forms.length = n →
      (validatePluralForms forms n).1 = forms
      ∧ ((∃ f ∈ forms, isNonBlankForm f = true) →
          (∃ f ∈ forms, isNonBlankForm f = false) →
          validatePluralForms forms n = (forms, true)) := by
  intro forms n h
  refine ⟨validatePluralForms_eq_count h, fun h1 h2 => ?_⟩
  obtain ⟨f1, hf1, hb1⟩ := h1
  obtain ⟨f2, hf2, hb2⟩ := h2
  have hpos : 0 < (forms.filter isNonBlankForm).length := by
    rw [List.length_pos]
    intro hnil
    have : f1 ∈ forms.filter isNonBlankForm := List.mem_filter.mpr ⟨hf1, hb1⟩
    rw [hnil] at this
    simp at this
  have hlt : (forms.filter isNonBlankForm).length < n := by
    rw [← h]
    exact List.length_filter_lt_length_iff_exists.mpr ⟨f2, hf2, by simp [hb2]⟩
  unfold validatePluralForms
  simp only [h, lt_irrefl, if_neg (lt_irrefl n)]
  simp [hpos, hlt]

/-- Witness for C7 at a concrete input. -/
theorem c7_incomplete_forms_advisory_witness :
    (validatePluralForms [['a'], []] 2).1 = [['a'], []]
    ∧ validatePluralForms [['a'], []] 2 = ([['a'], []], true) := by
  have h := c7_incomplete_forms_advisory [['a'], []] 2 (by decide)
  exact ⟨h.1, h.2 ⟨['a'], by decide, by decide⟩ ⟨[], by decide, by decide⟩⟩

/-! ## Claim C9: retry configuration -/

/-- C9: the maxRetries of the final configuration equals the CLI value for
1 .. 10 and defaults to 3, and retry delays are clamped into their range
with default 2000; but a supplied value of 0, although documented as valid
and accepted by the CLI clamp, is discarded by the falsy JavaScript OR in
createConfiguration and replaced by the default 3, contradicting the
claim for the value 0. -/
theorem c9_retry_configuration :
    configMaxRetries (some 0) = 3
    ∧ (∀ v : Int, 1 ≤ v → v ≤ 10 → configMaxRetries (some v) = v)
    ∧ configMaxRetries none = 3
    ∧ (∀ v : Int, 0 ≤ cliMaxRetries (some v) ∧ cliMaxRetries (some v) ≤ 10)
    ∧ (∀ v : Int, 500 ≤ v → v ≤ 30000 → configRetryDelay (some v) = v)
    ∧ configRetryDelay none = 2000
    ∧ (∀ v : Int, 500 ≤ cliRetryDelay (some v) ∧ cliRetryDelay (some v) ≤ 30000) := by
  refine ⟨by decide, fun v h1 h2 => ?_, by decide, fun v => ?_, fun v h1 h2 => ?_, by decide, fun v => ?_⟩
  · unfold configMaxRetries cliMaxRetries
    have hmin : min 10 v = v := min_eq_right h2
    have hmax : max 0 (min 10 v) = v := by rw [hmin]; exact max_eq_right (by omega)
    simp only [hmax]
    rw [if_neg (by omega)]
  · unfold cliMaxRetries
    constructor <;> [exact le_max_left 0 _; exact max_le (by omega) (min_le_left 10 v)]
  · unfold configRetryDelay cliRetryDelay
    have hmin : min 30000 v = v := min_eq_right h2
    have hmax : max 500 (min 30000 v) = v := by rw [hmin]; exact max_eq_right (by omega)
    simp only [hmax]
    rw [if_neg (by omega)]
  · unfold cliRetryDelay
    constructor <;> [exact le_max_left 500 _; exact max_le (by omega) (min_le_left 30000 v)]

/-- Witness for C9 at concrete values. -/
theorem c9_retry_configuration_witness :
    configMaxRetries (some 7) = 7 ∧ configRetryDelay (some 1500) = 1500 := by
  exact ⟨c9_retry_configuration.2.1 7 (by decide) (by decide),
    c9_retry_configuration.2.2.2.2.1 1500 (by decide) (by decide)⟩

/-! ## Lemmas about the block-processing loop -/

/-- Updating forms preserves the number of results. -/
theorem updateMsgstr_length (ts : List Translation) (i : Nat) (v : List (List Char)) :
    (updateMsgstr ts i v).length = ts.length := by
  unfold updateMsgstr
  cases h : ts[i]? with
  | none => rfl
  | some t => simp

/-- Updating forms at one position leaves the other positions unchanged. -/
theorem updateMsgstr_getElem?_ne (ts : List Translation) (i : Nat)
    (v : List (List Char)) {j : Nat} (h : j ≠ i) :
    (updateMsgstr ts i v)[j]? = ts[j]? := by
  unfold updateMsgstr
  cases h2 : ts[i]? with
  | none => rfl
  | some t => simp [List.getElem?_set_ne (Ne.symm h)]

/-- Updating forms at an in-range position stores exactly the new forms. -/
theorem updateMsgstr_getElem?_self {ts : List Translation} {i : Nat}
    (v : List (List Char)) {t : Translation} (h : ts[i]? = some t) :
    (updateMsgstr ts i v)[i]? = some { t with msgstr := v } := by
  have hi : i < ts.length := by
    by_contra hge
    rw [List.getElem?_eq_none (by omega)] at h
    cases h
  unfold updateMsgstr
  rw [h]
  exact List.getElem?_set_self hi

/-- The translations after one block are determined by the block action. -/
theorem processBlock_translationsEq (batch : List Entry) (pc D : Nat)
    (st : ParseState) (block : List Char) :
    (processBlock batch pc D st block).translations
      = match blockAction batch pc D block with
        | BlockAction.write p v _ => updateMsgstr st.translations p v
        | _ => st.translations := by
  unfold processBlock
  rcases blockAction batch pc D block with _ | _ | ⟨p, v, f⟩ <;> rfl

/-- Updating at a missing position changes nothing. -/
theorem updateMsgstr_of_none {ts : List Translation} {i : Nat}
    (v : List (List Char)) (h : ts[i]? = none) : updateMsgstr ts i v = ts := by
  unfold updateMsgstr
  rw [h]

/-- Translations after a skipped block. -/
theorem processBlock_translations_of_skip {batch : List Entry} {pc D : Nat}
    {st : ParseState} {block : List Char}
    (hb : blockAction batch pc D block = BlockAction.skip) :
    (processBlock batch pc D st block).translations = st.translations := by
  rw [processBlock_translationsEq, hb]

/-- Translations after a warned block. -/
theorem processBlock_translations_of_warn {batch : List Entry} {pc D : Nat}
    {st : ParseState} {block : List Char}
    (hb : blockAction batch pc D block = BlockAction.warn) :
    (processBlock batch pc D st block).translations = st.translations := by
  rw [processBlock_translationsEq, hb]

/-- Translations after a writing block. -/
theorem processBlock_translations_of_write {batch : List Entry} {pc D : Nat}
    {st : ParseState} {block : List Char} {p : Nat} {v : List (List Char)} {f : Bool}
    (hb : blockAction batch pc D block = BlockAction.write p v f) :
    (processBlock batch pc D st block).translations
      = updateMsgstr st.translations p v := by
  rw [processBlock_translationsEq, hb]

/-- One block preserves the number of results. -/
theorem processBlock_length (batch : List Entry) (pc D : Nat)
    (st : ParseState) (block : List Char) :
    (processBlock batch pc D st block).translations.length
      = st.translations.length := by
  rw [processBlock_translationsEq]
  rcases blockAction batch pc D block with _ | _ | ⟨p, v, f⟩
  · rfl
  · rfl
  · exact updateMsgstr_length _ _ _

/-- The whole loop preserves the number of results. -/
theorem foldl_processBlock_length (batch : List Entry) (pc D : Nat) :
    ∀ (bs : List (List Char)) (st : ParseState),
      ((bs.foldl (processBlock batch pc D) st).translations.length
        = st.translations.length) := by
  intro bs
  induction bs with
  | nil => intro st; rfl
  | cons b bs ih =>
    intro st
    rw [List.foldl_cons, ih, processBlock_length]

/-- A block that does not write at position p leaves position p
unchanged. -/
theorem processBlock_getElem?_of_no_write (batch : List Entry) (pc D : Nat)
    (st : ParseState) (block : List Char) {p : Nat}
    (h : ∀ v2 f2, blockAction batch pc D block ≠ BlockAction.write p v2 f2) :
    (processBlock batch pc D st block).translations[p]? = st.translations[p]? := by
  rw [processBlock_translationsEq]
  rcases hb : blockAction batch pc D block with _ | _ | ⟨p2, v2, f2⟩
  · rfl
  · rfl
  · have hne : p ≠ p2 := by
      intro he
      exact h v2 f2 (by rw [hb, he])
    exact updateMsgstr_getElem?_ne _ _ _ hne

/-- A run of blocks none of which writes at position p leaves position p
unchanged. -/
theorem foldl_processBlock_getElem? (batch : List Entry) (pc D : Nat) {p : Nat} :
    ∀ (bs : List (List Char)) (st : ParseState),
      (∀ b ∈ bs, ∀ v2 f2, blockAction batch pc D b ≠ BlockAction.write p v2 f2) →
      (bs.foldl (processBlock batch pc D) st).translations[p]?
        = st.translations[p]? := by
  intro bs
  induction bs with
  | nil => intro st _; rfl
  | cons b bs ih =>
    intro st h
    rw [List.foldl_cons, ih _ fun b2 hb2 => h b2 (List.mem_cons_of_mem b hb2),
      processBlock_getElem?_of_no_write _ _ _ _ _ (h b (List.mem_cons_self b bs))]

/-- Every write action targets the response index shifted by the
dictionary count, and only in-range positions are written. -/
theorem blockAction_write_index {batch : List Entry} {pc D : Nat}
    {block : List Char} {i : Nat} (h : findIndexAttr block = some i) :
    ∀ p v f, blockAction batch pc D block = BlockAction.write p v f →
      p = i - D - 1 ∧ D < i ∧ p < batch.length := by
  intro p v f hw
  simp only [blockAction, h] at hw
  by_cases h1 : i ≤ D
  · rw [if_pos h1] at hw
    exact BlockAction.noConfusion hw
  rw [if_neg h1] at hw
  by_cases h2 : batch.length ≤ i - D - 1
  · rw [if_pos h2] at hw
    exact BlockAction.noConfusion hw
  rw [if_neg h2] at hw
  have hgoal : p = i - D - 1 → p = i - D - 1 ∧ D < i ∧ p < batch.length :=
    fun he => ⟨he, by omega, by omega⟩
  split at hw
  · exact hgoal (BlockAction.write.inj hw).1.symm
  · split at hw
    · split at hw
      · exact hgoal (BlockAction.write.inj hw).1.symm
      · exact hgoal (BlockAction.write.inj hw).1.symm
    · exact BlockAction.noConfusion hw

/-! ## Claim C1: dictionary offset correctness -/

/-- Enumerating from a start value and shifting by a constant gives a
contiguous range. -/
theorem enumFrom_map_add {α : Type} (k : Nat) :
    ∀ (l : List α) (n : Nat),
      (List.enumFrom n l).map (fun p => k + p.1) = List.range' (k + n) l.length := by
  intro l
  induction l with
  | nil => intro n; rfl
  | cons a l ih =>
    intro n
    show (k + n) :: (List.enumFrom (n + 1) l).map (fun p => k + p.1) = _
    rw [ih (n + 1), show k + (n + 1) = (k + n) + 1 by omega]
    show _ = List.range' (k + n) (l.length + 1)
    rw [List.range'_succ]

/-- The start index is always one past the dictionary block. -/
theorem batchStartIndex_eq (D : Nat) : batchStartIndex D = D + 1 := by
  unfold batchStartIndex
  split <;> omega

/-- C1: the encoder assigns the dictionary examples the indices 1 .. D and
the batch entries the indices D+1 .. D+B in order; the decoder silently
discards a block whose index is at most D, maps a block with index D+k
(for k in 1 .. B) to the zero-based batch position k-1 while touching no
other position, and logs a warning and changes nothing for a block whose
index exceeds D+B.  An index of 0 falls under the discard clause, which
the code checks first. -/
theorem c1_dictionary_offset_correctness :
    (∀ dm : List DictMatch, dictIndices dm = List.range' 1 dm.length)
    ∧ (∀ (batch : List Entry) (D : Nat),
        entryIndices batch D = List.range' (D + 1) batch.length)
    ∧ (∀ (batch : List Entry) (pc D : Nat) (st : ParseState) (block : List Char)
        (i : Nat), findIndexAttr block = some i →
        (i ≤ D → processBlock batch pc D st block = st)
        ∧ (∀ k, 1 ≤ k → k ≤ batch.length → i = D + k →
            ((processBlock batch pc D st block).translations.length
                = st.translations.length
            ∧ (∀ p v f, blockAction batch pc D block = BlockAction.write p v f →
                p = k - 1)
            ∧ ∀ j, j ≠ k - 1 →
                (processBlock batch pc D st block).translations[j]?
                  = st.translations[j]?))
        ∧ (D + batch.length < i →
            processBlock batch pc D st block
              = { st with warnings := st.warnings + 1 })) := by
  refine ⟨?_, ?_, ?_⟩
  · intro dm
    have h := enumFrom_map_add 1 dm 0
    unfold dictIndices
    show (List.enumFrom 0 dm).map (fun p => p.1 + 1) = _
    rw [List.map_congr_left (fun (p : Nat × DictMatch) _ =>
      show p.1 + 1 = 1 + p.1 by omega)]
    simpa using h
  · intro batch D
    have h := enumFrom_map_add (batchStartIndex D) batch 0
    unfold entryIndices
    show (List.enumFrom 0 batch).map (fun p => batchStartIndex D + p.1) = _
    simpa [batchStartIndex_eq] using h
  · intro batch pc D st block i h
    refine ⟨fun hle => ?_, fun k hk1 hk2 hik => ?_, fun hgt => ?_⟩
    · simp only [processBlock, blockAction, h, if_pos hle]
    · refine ⟨processBlock_length batch pc D st block, fun p v f hw =>
        ?_, fun j hj => ?_⟩
      · have := (blockAction_write_index h p v f hw).1
        omega
      · rw [processBlock_translationsEq]
        rcases hb : blockAction batch pc D block with _ | _ | ⟨p, v, f⟩
        · rfl
        · rfl
        · have hp := (blockAction_write_index h p v f hb).1
          exact updateMsgstr_getElem?_ne _ _ _ (by omega)
    · simp only [processBlock, blockAction, h]
      rw [if_neg (show ¬ i ≤ D by omega), if_pos (show batch.length ≤ i - D - 1 by omega)]

/-- Witness for C1 at concrete inputs: with one dictionary example and a
one-entry batch, a block with index 1 is discarded, a block with index 2
writes position 0, and a block with index 3 only warns. -/
theorem c1_dictionary_offset_correctness_witness :
    processBlock [{ msgid := ['a'], msgid_plural := none, extractedComments := none }] 1 1
        { translations := [{ msgid := ['a'], msgstr := [[]] }],
          stringsWithPluralIssues := 0, warnings := 0 }
        ("<t i=\"1\">x</t>".data)
      = { translations := [{ msgid := ['a'], msgstr := [[]] }],
          stringsWithPluralIssues := 0, warnings := 0 }
    ∧ processBlock [{ msgid := ['a'], msgid_plural := none, extractedComments := none }] 1 1
        { translations := [{ msgid := ['a'], msgstr := [[]] }],
          stringsWithPluralIssues := 0, warnings := 0 }
        ("<t i=\"3\">x</t>".data)
      = { translations := [{ msgid := ['a'], msgstr := [[]] }],
          stringsWithPluralIssues := 0, warnings := 1 }
    ∧ (∀ p v f, blockAction [{ msgid := ['a'], msgid_plural := none, extractedComments := none }] 1 1
        ("<t i=\"2\">x</t>".data) = BlockAction.write p v f → p = 0) := by
  have h1 := (c1_dictionary_offset_correctness.2.2
    [{ msgid := ['a'], msgid_plural := none, extractedComments := none }] 1 1
    { translations := [{ msgid := ['a'], msgstr := [[]] }],
      stringsWithPluralIssues := 0, warnings := 0 }
    ("<t i=\"1\">x</t>".data) 1 (by decide)).1 (by decide)
  have h3 := (c1_dictionary_offset_correctness.2.2
    [{ msgid := ['a'], msgid_plural := none, extractedComments := none }] 1 1
    { translations := [{ msgid := ['a'], msgstr := [[]] }],
      stringsWithPluralIssues := 0, warnings := 0 }
    ("<t i=\"3\">x</t>".data) 3 (by decide)).2.2 (by decide)
  have h2 := ((c1_dictionary_offset_correctness.2.2
    [{ msgid := ['a'], msgid_plural := none, extractedComments := none }] 1 1
    { translations := [{ msgid := ['a'], msgstr := [[]] }],
      stringsWithPluralIssues := 0, warnings := 0 }
    ("<t i=\"2\">x</t>".data) 2 (by decide)).2.1 1 (by decide) (by decide)
    (by decide)).2.1
  exact ⟨h1, h3, h2⟩

/-! ## Claim C3: decode robustness fallback -/

/-- C3: the decoder is a total function, and whenever no translation block
can be extracted from the response (in particular for the empty string,
whitespace, and text with no or only malformed tagged blocks), it returns
one result per batch entry with all forms empty (of length pluralCount)
and zeroed validation stats. -/
theorem c3_decode_fallback :
    ∀ (xmlResponse : List Char) (batch : List Entry) (pc D : Nat),
      findBlocks xmlResponse = [] →
      parseXmlResponse xmlResponse batch pc D
        = { translations :=
              batch.map fun e => { msgid := e.msgid, msgstr := List.replicate pc [] },
            stringsWithPluralIssues := 0, warnings := 0 } := by
  intro xmlResponse batch pc D h
  unfold parseXmlResponse
  by_cases ht : trimChars xmlResponse = []
  · rw [if_pos ht]
  · rw [if_neg ht, h]

/-- Witness for C3: a malformed response with an unclosed block decodes to
the all-empty fallback. -/
theorem c3_decode_fallback_witness :
    parseXmlResponse ("<t i=\"1\">never closed".data)
        [{ msgid := ['a'], msgid_plural := none, extractedComments := none }] 2 0
      = { translations := [{ msgid := ['a'], msgstr := [[], []] }],
          stringsWithPluralIssues := 0, warnings := 0 } := by
  have h := c3_decode_fallback ("<t i=\"1\">never closed".data)
    [{ msgid := ['a'], msgid_plural := none, extractedComments := none }] 2 0 (by decide)
  simpa using h

/-! ## Whitespace responses have no blocks -/

/-- A string that trims to nothing is all whitespace. -/
theorem trim_nil_all_ws {s : List Char} (h : trimChars s = []) :
    ∀ c ∈ s, c.isWhitespace := by
  unfold trimChars at h
  rw [List.reverse_eq_nil_iff] at h
  have h2 : ∀ c ∈ (s.dropWhile Char.isWhitespace).reverse, Char.isWhitespace c :=
    List.dropWhile_eq_nil_iff.mp h
  have h3 : ∀ c ∈ s.dropWhile Char.isWhitespace, Char.isWhitespace c := by
    intro c hc
    exact h2 c (List.mem_reverse.mpr hc)
  intro c hc
  rw [← List.takeWhile_append_dropWhile (p := Char.isWhitespace) (l := s)] at hc
  rcases List.mem_append.mp hc with h4 | h4
  · exact List.mem_takeWhile_imp h4
  · exact h3 c h4

/-- No block match can start at a character other than the opening
angle bracket. -/
theorem tryTBlockAt_none_of_head_ne {c : Char} (rest : List Char) (h : c ≠ '<') :
    tryTBlockAt (c :: rest) = none := by
  unfold tryTBlockAt
  split
  · rename_i r heq
    rw [List.cons.injEq] at heq
    exact absurd heq.1 h
  · rfl

/-- An all-whitespace string contains no translation block. -/
theorem findBlocksAux_of_all_ws :
    ∀ (fuel : Nat) (s : List Char), (∀ c ∈ s, c.isWhitespace) →
      findBlocksAux fuel s = [] := by
  intro fuel
  induction fuel with
  | zero => intro s _; rfl
  | succ fuel ih =>
    intro s h
    cases s with
    | nil => rfl
    | cons c rest =>
      have hcw : c.isWhitespace := h c (List.mem_cons_self c rest)
      have hne : c ≠ '<' := by
        intro he
        rw [he] at hcw
        exact absurd hcw (by decide)
      simp only [findBlocksAux, tryTBlockAt_none_of_head_ne rest hne]
      exact ih rest fun d hd => h d (List.mem_cons_of_mem c hd)

/-- A whitespace-only response yields no blocks. -/
theorem findBlocks_of_trim_nil {s : List Char} (h : trimChars s = []) :
    findBlocks s = [] :=
  findBlocksAux_of_all_ws s.length s (trim_nil_all_ws h)

/-! ## Claim C10: duplicate indices and blocks without an index -/

/-- C10: a block without an index attribute is skipped without affecting
any entry; and when several blocks write the same in-range position, the
final decoded forms at that position are those of the last such block in
document order. -/
theorem c10_duplicate_index_last_wins :
    (∀ (batch : List Entry) (pc D : Nat) (st : ParseState) (block : List Char),
        findIndexAttr block = none →
        (processBlock batch pc D st block).translations = st.translations)
    ∧ (∀ (response : List Char) (batch : List Entry) (pc D : Nat)
        (bs1 bs2 : List (List Char)) (block : List Char) (p : Nat)
        (v : List (List Char)) (f : Bool),
        findBlocks response = bs1 ++ block :: bs2 →
        blockAction batch pc D block = BlockAction.write p v f →
        (∀ b2 ∈ bs2, ∀ v2 f2, blockAction batch pc D b2 ≠ BlockAction.write p v2 f2) →
        p < batch.length →
        ((parseXmlResponse response batch pc D).translations[p]?.map
            Translation.msgstr) = some v) := by
  constructor
  · intro batch pc D st block h
    rw [processBlock_translationsEq]
    have hb : blockAction batch pc D block = BlockAction.warn := by
      unfold blockAction
      rw [h]
    rw [hb]
  · intro response batch pc D bs1 bs2 block p v f hfb hw hafter hp
    have htrim : ¬ trimChars response = [] := by
      intro ht
      rw [findBlocks_of_trim_nil ht] at hfb
      exact absurd hfb.symm (List.append_ne_nil_of_right_ne_nil bs1 (by simp))
    unfold parseXmlResponse
    rw [if_neg htrim, hfb]
    have hmain : ∀ init : ParseState, p < init.translations.length →
        (((bs1 ++ block :: bs2).foldl (processBlock batch pc D) init).translations[p]?.map
          Translation.msgstr) = some v := by
      intro init hpinit
      rw [List.foldl_append, List.foldl_cons]
      have hlen1 : p < ((bs1.foldl (processBlock batch pc D) init).translations).length := by
        rw [foldl_processBlock_length]
        exact hpinit
      obtain ⟨t1, ht1⟩ : ∃ t1,
          ((bs1.foldl (processBlock batch pc D) init).translations)[p]? = some t1 :=
        ⟨_, List.getElem?_eq_getElem hlen1⟩
      have hone : (processBlock batch pc D (bs1.foldl (processBlock batch pc D) init)
          block).translations[p]? = some { t1 with msgstr := v } := by
        rw [processBlock_translationsEq, hw]
        exact updateMsgstr_getElem?_self v ht1
      rw [foldl_processBlock_getElem? batch pc D bs2 _ hafter, hone]
      rfl
    have hinit : p < (batch.map fun e =>
        ({ msgid := e.msgid, msgstr := List.replicate pc [] } : Translation)).length := by
      simpa using hp
    cases hbs1 : bs1 with
    | nil =>
      rw [hbs1] at hmain
      exact hmain _ hinit
    | cons b0 bs1' =>
      rw [hbs1] at hmain
      exact hmain _ hinit

/-- Witness for C10: two blocks carry index 1; the second block wins, and
a block without an index attribute changes no translation. -/
theorem c10_duplicate_index_last_wins_witness :
    ((parseXmlResponse ("<t i=\"1\">x</t><t i=\"1\">y</t>".data)
        [{ msgid := ['a'], msgid_plural := none, extractedComments := none }] 1 0).translations[0]?.map
      Translation.msgstr) = some [['y']]
    ∧ (processBlock [{ msgid := ['a'], msgid_plural := none, extractedComments := none }] 1 0
        { translations := [{ msgid := ['a'], msgstr := [[]] }],
          stringsWithPluralIssues := 0, warnings := 0 }
        ("<t>no index</t>".data)).translations
      = [{ msgid := ['a'], msgstr := [[]] }] := by
  constructor
  · exact c10_duplicate_index_last_wins.2 ("<t i=\"1\">x</t><t i=\"1\">y</t>".data)
      [{ msgid := ['a'], msgid_plural := none, extractedComments := none }] 1 0
      [("<t i=\"1\">x</t>".data)] [] ("<t i=\"1\">y</t>".data) 0 [['y']] false
      (by decide) (by decide) (fun b2 hb2 => absurd hb2 (List.not_mem_nil b2)) (by decide)
  · exact c10_duplicate_index_last_wins.1 _ _ _ _ _ (by decide)

/-! ## Claim C2: forms-length invariant -/

/-- Every write action stores either exactly pluralCount forms, or exactly
one form for a batch entry without a plural source. -/
theorem blockAction_write_shape {batch : List Entry} {pc D : Nat}
    {block : List Char} {p : Nat} {v : List (List Char)} {f : Bool}
    (hw : blockAction batch pc D block = BlockAction.write p v f) :
    v.length = pc ∨ ((batch.getD p defaultEntry).msgid_plural = none ∧ v.length = 1) := by
  unfold blockAction at hw
  cases hidx : findIndexAttr block with
  | none =>
    rw [hidx] at hw
    exact BlockAction.noConfusion hw
  | some i =>
    rw [hidx] at hw
    simp only [] at hw
    by_cases h1 : i ≤ D
    · rw [if_pos h1] at hw
      exact BlockAction.noConfusion hw
    rw [if_neg h1] at hw
    by_cases h2 : batch.length ≤ i - D - 1
    · rw [if_pos h2] at hw
      exact BlockAction.noConfusion hw
    rw [if_neg h2] at hw
    split at hw
    · obtain ⟨hp, hv, -⟩ := BlockAction.write.inj hw
      exact Or.inl (hv ▸ validatePluralForms_length _ pc)
    · split at hw
      · split at hw
        · obtain ⟨hp, hv, -⟩ := BlockAction.write.inj hw
          exact Or.inl (hv ▸ validatePluralForms_length _ pc)
        · rename_i hnone
          obtain ⟨hp, hv, -⟩ := BlockAction.write.inj hw
          exact Or.inr ⟨hp ▸ hnone, hv ▸ rfl⟩
      · exact BlockAction.noConfusion hw

/-- The forms-shape invariant survives the whole block loop. -/
theorem foldl_processBlock_shape (batch : List Entry) (pc D : Nat) :
    ∀ (bs : List (List Char)) (st : ParseState),
      (∀ (i : Nat) (t : Translation) (e : Entry),
        st.translations[i]? = some t → batch[i]? = some e →
        t.msgstr.length = pc ∨ (e.msgid_plural = none ∧ t.msgstr.length = 1)) →
      ∀ (i : Nat) (t : Translation) (e : Entry),
        (bs.foldl (processBlock batch pc D) st).translations[i]? = some t →
        batch[i]? = some e →
        t.msgstr.length = pc ∨ (e.msgid_plural = none ∧ t.msgstr.length = 1) := by
  intro bs
  induction bs with
  | nil => intro st h; exact h
  | cons b bs ih =>
    intro st h
    rw [List.foldl_cons]
    apply ih
    intro i t e h1 h2
    rcases hb : blockAction batch pc D b with _ | _ | ⟨p, v, f⟩
    · rw [processBlock_translations_of_skip hb] at h1
      exact h i t e h1 h2
    · rw [processBlock_translations_of_warn hb] at h1
      exact h i t e h1 h2
    · rw [processBlock_translations_of_write hb] at h1
      by_cases hip : i = p
      · subst hip
        cases hold : st.translations[i]? with
        | none =>
          rw [updateMsgstr_of_none v hold, hold] at h1
          cases h1
        | some told =>
          rw [updateMsgstr_getElem?_self v hold] at h1
          obtain rfl : ({ told with msgstr := v } : Translation) = t := by
            injection h1
          have hv := blockAction_write_shape hb
          rcases hv with hv | ⟨hnone, hv⟩
          · exact Or.inl hv
          · refine Or.inr ⟨?_, hv⟩
            rw [List.getD_eq_getD_get?, List.get?_eq_getElem?, h2] at hnone
            exact hnone
      · rw [updateMsgstr_getElem?_ne _ _ _ hip] at h1
        exact h i t e h1 h2

/-- Counterexample to C2 as stated: with pluralCount 2, a batch entry
without a plural source answered by a block without form tags receives a
one-element forms list, not two. -/
theorem c2_counterexample :
    (parseXmlResponse ("<t i=\"1\">x</t>".data)
        [{ msgid := ['a'], msgid_plural := none, extractedComments := none }] 2 0).translations
      = [{ msgid := ['a'], msgstr := [['x']] }]
    ∧ ([['x']] : List (List Char)).length ≠ 2 := by
  decide

/-- C2 (amended): every decoded translation has exactly pluralCount forms,
except that an entry without a plural source whose block carries no form
tags receives exactly one form. -/
theorem c2_forms_length_invariant :
    ∀ (response : List Char) (batch : List Entry) (pc D : Nat) (i : Nat)
      (t : Translation) (e : Entry),
      (parseXmlResponse response batch pc D).translations[i]? = some t →
      batch[i]? = some e →
      t.msgstr.length = pc ∨ (e.msgid_plural = none ∧ t.msgstr.length = 1) := by
  intro response batch pc D i t e h1 h2
  have hinit : ∀ (i : Nat) (t : Translation) (e : Entry),
      ((batch.map fun e2 => ({ msgid := e2.msgid, msgstr := List.replicate pc ([] : List Char) } : Translation))[i]? = some t) →
      batch[i]? = some e →
      t.msgstr.length = pc ∨ (e.msgid_plural = none ∧ t.msgstr.length = 1) := by
    intro j t2 e2 hj he2
    rw [List.getElem?_map, he2] at hj
    obtain rfl : ({ msgid := e2.msgid, msgstr := List.replicate pc [] } : Translation) = t2 := by
      injection hj
    exact Or.inl (List.length_replicate pc [])
  unfold parseXmlResponse at h1
  by_cases ht : trimChars response = []
  · rw [if_pos ht] at h1
    exact hinit i t e h1 h2
  rw [if_neg ht] at h1
  cases hfb : findBlocks response with
  | nil =>
    rw [hfb] at h1
    exact hinit i t e h1 h2
  | cons b bs =>
    rw [hfb] at h1
    exact foldl_processBlock_shape batch pc D (b :: bs) _ hinit i t e h1 h2

/-- Witness for C2 (amended) at the counterexample input: the entry has no
plural source and receives one form. -/
theorem c2_forms_length_invariant_witness :
    ([['x']] : List (List Char)).length = 2
    ∨ ((none : Option (List Char)) = none ∧ ([['x']] : List (List Char)).length = 1) :=
  c2_forms_length_invariant ("<t i=\"1\">x</t>".data)
    [{ msgid := ['a'], msgid_plural := none, extractedComments := none }] 2 0 0
    { msgid := ['a'], msgstr := [['x']] }
    { msgid := ['a'], msgid_plural := none, extractedComments := none }
    (by decide) (by decide)

/-! ## Claim C6: single-form degradation for plural entries -/

/-- Counterexample to C6 as stated: with pluralCount 1 a plural entry
answered by a single-form block is stored as that one form, but the
plural-issue counter is not incremented. -/
theorem c6_counterexample :
    parseXmlResponse ("<t i=\"1\">x</t>".data)
        [{ msgid := "one".data, msgid_plural := some ("many".data),
           extractedComments := none }] 1 0
      = { translations := [{ msgid := "one".data, msgstr := [['x']] }],
          stringsWithPluralIssues := 0, warnings := 0 }
    ∧ (0 : Nat) ≠ 1 := by
  decide

/-- C6 (amended): for pluralCount at least 2, a lone in-range block without
form tags for an entry with a plural source stores the decoded value as
form 0 followed by empty forms, and increments the plural-issue counter;
for pluralCount 1 the single form is stored without an issue, as the
counterexample shows. -/
theorem c6_single_form_degradation :
    ∀ (response : List Char) (batch : List Entry) (pc D p : Nat)
      (block : List Char) (e : Entry) (pl content : List Char),
      findBlocks response = [block] →
      findIndexAttr block = some (D + p + 1) →
      batch[p]? = some e →
      e.msgid_plural = some pl →
      containsSub ("<f0>".data) block = false →
      contentMatch block = some content →
      2 ≤ pc →
      parseXmlResponse response batch pc D
        = { translations :=
              updateMsgstr
                (batch.map fun e2 => ({ msgid := e2.msgid, msgstr := List.replicate pc ([] : List Char) } : Translation))
                p (decodeXmlEntities content :: List.replicate (pc - 1) []),
            stringsWithPluralIssues := 1, warnings := 0 } := by
  intro response batch pc D p block e pl content hfb hidx hpe hpl hform hcont hpc
  have hplen : p < batch.length := by
    by_contra hge
    rw [List.getElem?_eq_none (by omega)] at hpe
    cases hpe
  have htrim : ¬ trimChars response = [] := by
    intro ht
    rw [findBlocks_of_trim_nil ht] at hfb
    cases hfb
  have haction : blockAction batch pc D block
      = BlockAction.write p (decodeXmlEntities content :: List.replicate (pc - 1) []) true := by
    simp only [blockAction, hidx]
    rw [if_neg (show ¬ D + p + 1 ≤ D by omega),
      show D + p + 1 - D - 1 = p by omega,
      if_neg (show ¬ batch.length ≤ p by omega)]
    rw [if_neg (by rw [hform]; exact Bool.false_ne_true)]
    have hgd : batch.getD p defaultEntry = e := by
      rw [List.getD_eq_getD_get?, List.get?_eq_getElem?, hpe]
      rfl
    have hvp : validatePluralForms [decodeXmlEntities content] pc
        = (decodeXmlEntities content :: List.replicate (pc - 1) [], true) := by
      rw [validatePluralForms_pad (by simp; omega)]
      simp
    simp only [hcont, hgd, hpl, hvp]
  unfold parseXmlResponse
  rw [if_neg htrim, hfb]
  show processBlock batch pc D _ block = _
  unfold processBlock
  rw [haction]
  simp

/-- Witness for C6 (amended) at a concrete input with pluralCount 2. -/
theorem c6_single_form_degradation_witness :
    parseXmlResponse ("<t i=\"1\">x</t>".data)
        [{ msgid := "one".data, msgid_plural := some ("many".data),
           extractedComments := none }] 2 0
      = { translations := [{ msgid := "one".data, msgstr := [['x'], []] }],
          stringsWithPluralIssues := 1, warnings := 0 } := by
  have h := c6_single_form_degradation ("<t i=\"1\">x</t>".data)
    [{ msgid := "one".data, msgid_plural := some ("many".data),
       extractedComments := none }] 2 0 0 ("<t i=\"1\">x</t>".data)
    { msgid := "one".data, msgid_plural := some ("many".data), extractedComments := none }
    ("many".data) (['x'])
    (by decide) (by decide) (by decide) (by decide) (by decide) (by decide) (by decide)
  rw [h]
  decide

/-! ## Claim C4: rendering of plural entries in the prompt -/

set_option maxRecDepth 20000 in
/-- C4: the prompt for a batch with a plural entry requests exactly
pluralCount sub-forms tagged f0, f1 and names singular and plural child
tags in its instructions, yet the rendered source block for the plural
entry is the plain single-tag format carrying only the singular text: the
plural source text appears nowhere in the prompt, because the branch
rendering it is commented out in the source. -/
theorem c4_plural_source_not_rendered :
    sourceTag 1 { msgid := "One".data, msgid_plural := some ("Many".data), extractedComments := none }
      = "<source i=\"1\">One</source>".data
    ∧ containsSub ("Many".data)
        (buildXmlPrompt [{ msgid := "One".data, msgid_plural := some ("Many".data), extractedComments := none }] ("French".data) 2 []).xmlPrompt = false
    ∧ containsSub ("For entries with <singular> and <plural> tags".data)
        (buildXmlPrompt [{ msgid := "One".data, msgid_plural := some ("Many".data), extractedComments := none }] ("French".data) 2 []).xmlPrompt = true
    ∧ containsSub ("<f0>".data)
        (buildXmlPrompt [{ msgid := "One".data, msgid_plural := some ("Many".data), extractedComments := none }] ("French".data) 2 []).xmlPrompt = true
    ∧ containsSub ("<f1>".data)
        (buildXmlPrompt [{ msgid := "One".data, msgid_plural := some ("Many".data), extractedComments := none }] ("French".data) 2 []).xmlPrompt = true := by
  decide

end Potomatic
